import Mathlib

/-!
Verification of the matching-and-merge pipeline of the `pdf-document-processor`
repository, as a shallow embedding in Lean 4.

Source files embedded here:
* `src/file_utils.py`   — `get_file_date`, `extract_id_from_filename`, `find_matching_files`
* `src/pdf_operations.py` — `merge_pdf_files`
* `src/document_processor.py` — `DocumentProcessor.process_documents`,
  `DocumentProcessor._process_single_document`
* `src/config.py`       — `ProcessorConfig.to_dict` / `from_dict` (serialization round trip)

Modelling conventions:
* Python strings are `List Char`; only ASCII case folding and ASCII whitespace
  are modelled (all inputs considered here are ASCII).
* Filesystem state and the pypdf library are modelled by an explicit
  environment record `Env`; dates are integers ordered like calendar dates.
* Fallible code returns `Option`.
-/

/-! ## Python string primitives -/

/-- The whitespace characters stripped by Python `str.strip()` (ASCII fragment). -/
def isPyWs (c : Char) : Bool :=
  c = ' ' || c = '\t' || c = '\n' || c = '\r' || c = '\x0b' || c = '\x0c'

/-- Python `s.strip()`: remove leading and trailing whitespace. -/
def pyStrip (s : List Char) : List Char :=
  ((s.dropWhile isPyWs).reverse.dropWhile isPyWs).reverse

/-- Python `s.split(sep)` for a single-character separator (keeps empty fields,
`"".split(sep) = [""]`). -/
def splitOnChar (sep : Char) : List Char → List (List Char)
  | [] => [[]]
  | c :: rest =>
    let r := splitOnChar sep rest
    if c = sep then [] :: r
    else
      match r with
      | [] => [[c]]
      | h :: t => (c :: h) :: t

/-- `pathlib.Path.name`: the final path component (paths here never end in `/`). -/
def pathName (p : List Char) : List Char :=
  (splitOnChar '/' p).getLastD p

/-! ## Regular expressions (the fragment used by the program)

`re.match(pattern, s, re.IGNORECASE)` is modelled by a small regex AST plus a
Brzozowski-derivative matcher.  `re.match` anchors at the start of the string
only; a pattern whose text ends in `$` additionally anchors the end, which is
recorded in the `anchoredEnd` flag of `PyPattern` (the Python allowance of a
trailing newline before `$` is immaterial here, since every candidate string
has been stripped of trailing whitespace first).  `re.IGNORECASE` is modelled
by ASCII-lowercasing the subject and writing character classes lowercased. -/

inductive RE : Type
  | eps : RE
  | cls (p : Char → Bool) : RE
  | seq (a b : RE) : RE
  | alt (a b : RE) : RE
  | star (a : RE) : RE

/-- The empty regex (matches nothing). -/
def RE.none : RE := RE.cls (fun _ => false)

def RE.nullable : RE → Bool
  | .eps => true
  | .cls _ => false
  | .seq a b => a.nullable && b.nullable
  | .alt a b => a.nullable || b.nullable
  | .star _ => true

def RE.deriv : RE → Char → RE
  | .eps, _ => RE.none
  | .cls p, c => if p c then .eps else RE.none
  | .seq a b, c => if a.nullable then .alt (.seq (a.deriv c) b) (b.deriv c) else .seq (a.deriv c) b
  | .alt a b, c => .alt (a.deriv c) (b.deriv c)
  | .star a, c => .seq (a.deriv c) (.star a)

/-- Whole-string acceptance. -/
def RE.acceptsL : RE → List Char → Bool
  | r, [] => r.nullable
  | r, c :: s => (r.deriv c).acceptsL s

/-- ASCII lowercase fold, as applied by `re.IGNORECASE` to ASCII letters. -/
def pyLower (c : Char) : Char :=
  if 65 ≤ c.toNat ∧ c.toNat ≤ 90 then Char.ofNat (c.toNat + 32) else c

/-- A compiled Python pattern of the shape `core` or `core$`
(`^` at the start is redundant under `re.match` and is dropped). -/
structure PyPattern where
  core : RE
  anchoredEnd : Bool

/-- Truthiness of `re.match(pattern, s, re.IGNORECASE)`: some prefix of `s`
(the whole of `s` when the pattern is end-anchored) is accepted, starting at
position 0. -/
def reMatchPy (pat : PyPattern) (s : List Char) : Bool :=
  let t := s.map pyLower
  if pat.anchoredEnd then pat.core.acceptsL t
  else (t.inits).any pat.core.acceptsL

/-- Lowercase ASCII letter test (class `[A-Za-z]` after `IGNORECASE` folding). -/
def isLowerAlphaB (c : Char) : Bool := 97 ≤ c.toNat && c.toNat ≤ 122

/-- ASCII digit test (class `\d` restricted to ASCII, as in the spec). -/
def isDigitB (c : Char) : Bool := 48 ≤ c.toNat && c.toNat ≤ 57

/-- The default identifier pattern `^[A-Za-z]\d+$` of
`extract_id_from_filename` (`file_utils.py:36`). -/
def defaultPattern : PyPattern :=
  { core := .seq (.cls isLowerAlphaB) (.seq (.cls isDigitB) (.star (.cls isDigitB)))
    anchoredEnd := true }

/-! ## `extract_id_from_filename` (`file_utils.py:34-64`)

```python
if not filename: return None
clean_filename = filename.strip()
parts = clean_filename.split(" ", 1)
if parts:                         # always true: split never returns []
    potential_id = parts[0].strip()
    if re.match(pattern, potential_id, re.IGNORECASE):
        return potential_id
return None
```
The internal `try/except` can only fire on a malformed pattern string, which a
compiled `PyPattern` cannot represent; it is therefore not modelled. -/

/-- The identifier candidate: the stripped text before the first space of the
stripped filename (`split(" ", 1)[0]` is the whole string when no space occurs). -/
def candidateToken (filename : List Char) : List Char :=
  pyStrip ((pyStrip filename).takeWhile (fun c => c ≠ ' '))

def extract_id_from_filename (pat : PyPattern) (filename : List Char) : Option (List Char) :=
  if filename = [] then Option.none
  else if reMatchPy pat (candidateToken filename) then some (candidateToken filename)
  else Option.none

/-- Independent characterization of `^[A-Za-z]\d+$` (case-insensitive):
one ASCII letter followed by one or more ASCII digits. -/
def specDefaultId (v : List Char) : Bool :=
  match v with
  | [] => false
  | c :: rest => (c.isUpper || c.isLower) && !rest.isEmpty && rest.all isDigitB

/-! ## Filesystem / pypdf environment

All effectful queries made by the pipeline are collected in one record.  A
path is a `List Char`; `mtime p = none` models `os.path.getmtime` raising.
`readOk p = false` models `PdfReader`/`append` raising on a corrupt file, and
`writeOk out = false` models `mkdir`/`write` raising; any such exception is
caught by `merge_pdf_files` and turned into failure. -/

structure Env where
  /-- Result of `config.source_folder.glob(glob_pattern)` (`document_processor.py:53`). -/
  listSource : List (List Char)
  /-- `pathlib.Path.exists()`. -/
  pathExists : List Char → Bool
  /-- `pathlib.Path.is_file()`. -/
  is_file : List Char → Bool
  /-- Modification date of a file (as an integer day number), `none` = unreadable. -/
  mtime : List Char → Option Int
  /-- Names of the entries of a directory (for the supplementary-folder glob). -/
  listing : List Char → List (List Char)
  /-- Whether creating a missing output folder succeeds (`config.py:55`). -/
  mkdirOk : List Char → Bool
  /-- `len(PdfReader(f).pages)`. -/
  pageCount : List Char → Nat
  /-- Whether opening/parsing this PDF succeeds. -/
  readOk : List Char → Bool
  /-- Whether creating the output's parent and writing the output succeeds. -/
  writeOk : List Char → Bool

/-! ## `get_file_date` (`file_utils.py:12-31`) -/

def get_file_date (env : Env) (p : List Char) : Option Int :=
  if env.pathExists p then env.mtime p else Option.none

/-! ## `find_matching_files` (`file_utils.py:67-102`)

```python
if not folder or not folder.exists(): return []
if not id_value: return []
pattern = f"{re.escape(id_value)} *{extension}"
matching_files = list(folder.glob(pattern))
matching_files.sort()
```
`re.escape` produces *regex* escaping, but `Path.glob` interprets the pattern
with *fnmatch* rules, where a backslash is an ordinary character.  The glob
fragment modelled is literals, `*` and `?`; a `[` character class can only
arise here when the identifier itself contains `[`, and no statement below
quantifies over such identifiers. -/

/-- The characters escaped by Python 3.7+ `re.escape`. -/
def isREspecial (c : Char) : Bool :=
  c = '(' || c = ')' || c = '[' || c = ']' || c = '\x7b' || c = '\x7d' ||
  c = '?' || c = '*' || c = '+' || c = '-' || c = '|' || c = '^' || c = '$' ||
  c = '\\' || c = '.' || c = '&' || c = '~' || c = '#' || c = ' ' ||
  c = '\t' || c = '\n' || c = '\r' || c = '\x0b' || c = '\x0c'

/-- Python `re.escape`: prefix every special character with a backslash. -/
def reEscape (s : List Char) : List Char :=
  s.flatMap (fun c => if isREspecial c then ['\\', c] else [c])

/-- One token of an fnmatch-style glob pattern. -/
inductive GTok : Type
  | lit (c : Char) : GTok
  | star : GTok
  | qmark : GTok
deriving DecidableEq

/-- Compile a glob pattern string to tokens (no escape character in fnmatch). -/
def globTokens (s : List Char) : List GTok :=
  s.map (fun c => if c = '*' then GTok.star else if c = '?' then GTok.qmark else GTok.lit c)

/-- fnmatch-style matching of a token list against a name: a literal or `?`
consumes one character, `*` consumes an arbitrary prefix (i.e. the rest of the
pattern matches some suffix of the rest of the name). -/
def gmatch : List GTok → List Char → Bool
  | [], s => s.isEmpty
  | GTok.lit _ :: _, [] => false
  | GTok.lit c :: p, x :: s => c = x && gmatch p s
  | GTok.qmark :: _, [] => false
  | GTok.qmark :: p, _ :: s => gmatch p s
  | GTok.star :: p, s => s.tails.any (fun t => gmatch p t)

/-- The names in `folder` matched by the glob pattern
`re.escape(id_value) ++ " *" ++ extension`, sorted ascending (Python string
comparison is the code-point lexicographic order; `list.sort` is stable, but
under a linear order the sorted permutation is unique, so `insertionSort`
yields the same list).  The code sorts the full `Path` objects, which all
share the folder prefix, so this equals the sort by name. -/
def matchingNames (env : Env) (folder id_value extension : List Char) : List (List Char) :=
  List.insertionSort (fun a b => a ≤ b)
    ((env.listing folder).filter
      (fun name => gmatch (globTokens (reEscape id_value ++ ' ' :: '*' :: extension)) name))

def find_matching_files (env : Env) (folder id_value extension : List Char) :
    List (List Char) :=
  if ¬ env.pathExists folder then []
  else if id_value = [] then []
  else (matchingNames env folder id_value extension).map (fun name => folder ++ '/' :: name)

/-! ## `merge_pdf_files` (`pdf_operations.py:10-93`)

An entry's `description` field is used only for logging and is omitted.  The
successful result is the ordered list of `(path, resolved page index)` pairs
written to the output; `none` is returned on failure (`return False`).

pypdf resolves a `pages=(start, stop)` tuple as `list(range(start, stop))` and
then indexes `reader.pages` with each element, where a negative index counts
from the end and an out-of-range index raises (caught here as failure). -/

structure MergeEntry where
  path : List Char
  /-- `'pages'` value; `none` when the key is absent (append the whole file). -/
  pages : Option (Int × Int)
deriving DecidableEq

/-- Python `range(s, t)` (step 1). -/
def pyRange (s t : Int) : List Int :=
  if s < t then (List.range (t - s).toNat).map (fun i => s + (i : Int)) else []

/-- `merger.append(fileobj, pages=(s, t))` on a file with `total` pages:
each index in `range(s, t)` resolved against `reader.pages`
(negative = from the end; out of range = `IndexError`, i.e. `none`). -/
def appendRange (p : List Char) (total : Nat) (s t : Int) :
    Option (List (List Char × Nat)) :=
  (pyRange s t).mapM
    (fun i =>
      let j : Int := if i < 0 then i + (total : Int) else i
      if 0 ≤ j ∧ j < (total : Int) then some (p, j.toNat) else Option.none)

/-- The pages contributed by one entry of the loop body
(`pdf_operations.py:36-70`); `none` = an exception escapes the entry. -/
def entryAppend (env : Env) (e : MergeEntry) : Option (List (List Char × Nat)) :=
  if ¬ env.pathExists e.path then some []      -- "File does not exist ... Skipping."
  else if ¬ env.readOk e.path then Option.none
  else
    let total := env.pageCount e.path
    match e.pages with
    | Option.none => some ((List.range total).map (fun i => (e.path, i)))
    | some (start_page, stop) =>
      let end_page : Int := if stop < 0 then (total : Int) + stop else stop
      if 0 < total then
        if (total : Int) ≤ end_page then
          appendRange e.path total start_page ((total : Int) - 1)  -- clamp branch
        else appendRange e.path total start_page stop
      else some []                              -- "has no pages. Skipping."

def merge_pdf_files (env : Env) (files_to_merge : List MergeEntry) (output : List Char) :
    Option (List (List Char × Nat)) :=
  if files_to_merge = [] then Option.none
  else
    match files_to_merge.mapM (entryAppend env) with
    | Option.none => Option.none
    | some chunks => if env.writeOk output then some chunks.flatten else Option.none

/-! ## `DocumentProcessor` (`document_processor.py`) -/

/-- The four-counter statistics record (`document_processor.py:25-30`). -/
structure Stats where
  processed : Nat
  skipped_format : Nat
  skipped_date : Nat
  errors : Nat
deriving DecidableEq

def Stats.zero : Stats := ⟨0, 0, 0, 0⟩

/-- Runtime configuration (`ProcessorConfig` as consumed by the processor;
the identifier pattern is kept in compiled form, the start date as an
integer day number). -/
structure RunConfig where
  source_folder : List Char
  supplementary_folder : Option (List Char)
  appendix_file : Option (List Char)
  output_folder : List Char
  start_date : Int
  id_pattern : PyPattern
  recursive : Bool

/-- `ProcessorConfig.validate` (`config.py:37-63`). -/
def validateConfig (env : Env) (cfg : RunConfig) : Bool :=
  env.pathExists cfg.source_folder &&
  (match cfg.supplementary_folder with
   | some f => env.pathExists f
   | Option.none => true) &&
  (match cfg.appendix_file with
   | some a => env.is_file a
   | Option.none => true) &&
  (env.pathExists cfg.output_folder || env.mkdirOk cfg.output_folder)

/-- The default extension `".pdf"` of `find_matching_files`, as used by its
only caller (`document_processor.py:111`). -/
def pdfExtension : List Char := ['.', 'p', 'd', 'f']

/-- The merge plan built by `_process_single_document`
(`document_processor.py:133-157`): the full source first; the first
supplementary match, if it is a file, with page range `(0, -2)`; the appendix,
if configured and a file, in full. -/
def buildPlan (env : Env) (cfg : RunConfig) (source_path : List Char)
    (doc_id : List Char) : List MergeEntry :=
  let supp_path : Option (List Char) :=
    match cfg.supplementary_folder with
    | some folder => (find_matching_files env folder doc_id pdfExtension).head?
    | Option.none => Option.none
  ⟨source_path, Option.none⟩ ::
    ((match supp_path with
      | some sp => if env.is_file sp then [⟨sp, some (0, -2)⟩] else []
      | Option.none => []) ++
     (match cfg.appendix_file with
      | some a => if env.is_file a then [⟨a, Option.none⟩] else []
      | Option.none => []))

/-- `output_path = self.config.output_folder / source_path.name`
(`document_processor.py:126`). -/
def outputPath (cfg : RunConfig) (source_path : List Char) : List Char :=
  cfg.output_folder ++ '/' :: pathName source_path

/-- `_process_single_document` (`document_processor.py:88-169`): build the
plan, merge, and bump `processed` or `errors`.  (The `try/except` around
appending the supplementary dict can never fire — appending a literal dict to
a list raises nothing — and is not modelled.) -/
def process_single_document (env : Env) (cfg : RunConfig) (stats : Stats)
    (source_path : List Char) (doc_id : List Char) : Stats :=
  match merge_pdf_files env (buildPlan env cfg source_path doc_id)
      (outputPath cfg source_path) with
  | some _ => { stats with processed := stats.processed + 1 }
  | Option.none => { stats with errors := stats.errors + 1 }

/-- One iteration of the scan loop (`document_processor.py:63-83`): skip
non-files; skip (by date) files whose resolved date is before the start date;
skip (by format) files without a truthy extracted id; otherwise process. -/
def processPath (env : Env) (cfg : RunConfig) (stats : Stats) (source_path : List Char) :
    Stats :=
  if ¬ env.is_file source_path then stats
  else
    let file_date := get_file_date env source_path
    if (match file_date with
        | some d => decide (d < cfg.start_date)
        | Option.none => false) then
      { stats with skipped_date := stats.skipped_date + 1 }
    else
      match extract_id_from_filename cfg.id_pattern (pathName source_path) with
      | some doc_id =>
        if doc_id = [] then { stats with skipped_format := stats.skipped_format + 1 }
        else process_single_document env cfg stats source_path doc_id
      | Option.none => { stats with skipped_format := stats.skipped_format + 1 }

/-- `process_documents` (`document_processor.py:33-86`). -/
def process_documents (env : Env) (cfg : RunConfig) : Stats :=
  if ¬ validateConfig env cfg then Stats.zero
  else if env.listSource = [] then Stats.zero
  else env.listSource.foldl (processPath env cfg) Stats.zero

/-- A discovered path that reaches `_process_single_document`: a regular file,
not skipped by date, with a truthy extracted identifier. -/
def admittedB (env : Env) (cfg : RunConfig) (source_path : List Char) : Bool :=
  env.is_file source_path &&
  !(match get_file_date env source_path with
    | some d => decide (d < cfg.start_date)
    | Option.none => false) &&
  (match extract_id_from_filename cfg.id_pattern (pathName source_path) with
   | some doc_id => !doc_id.isEmpty
   | Option.none => false)

/-! ## `ProcessorConfig` serialization (`config.py:65-109`)

POSIX `pathlib.PurePath`: a parsed path is an absolute flag plus the list of
components, where empty and `"."` components are dropped; `str()` renders `/`
for an empty absolute path and `.` for an empty relative one.  (The POSIX
double-slash root special case is not modelled; no path here begins with
`//`.)  A genuine `Path` object's components are nonempty, are not `"."`, and
contain no `/` — `PPath.wf` below. -/

structure PPath where
  absolute : Bool
  parts : List (List Char)
deriving DecidableEq

/-- `pathlib.Path(s)` for a nonempty string `s`. -/
def parsePath (s : List Char) : PPath :=
  { absolute := s.head? = some '/'
    parts := (splitOnChar '/' s).filter (fun q => ¬ (q = [] ∨ q = ['.'])) }

/-- `str(path)`. -/
def renderPath (p : PPath) : List Char :=
  if p.absolute then '/' :: List.intercalate ['/'] p.parts
  else if p.parts = [] then ['.']
  else List.intercalate ['/'] p.parts

/-- The invariant every `pathlib.Path` object satisfies. -/
def PPath.wf (p : PPath) : Bool :=
  p.parts.all (fun q => ¬ q.isEmpty && q ≠ ['.'] && ¬ q.contains '/')

/-- `datetime.date`: year/month/day, `1 ≤ year ≤ 9999`. -/
structure PyDate where
  year : Nat
  month : Nat
  day : Nat
deriving DecidableEq

def isLeapYear (y : Nat) : Bool := (y % 4 = 0 && y % 100 ≠ 0) || y % 400 = 0

def daysInMonth (y m : Nat) : Nat :=
  if m = 2 then (if isLeapYear y then 29 else 28)
  else if m = 4 || m = 6 || m = 9 || m = 11 then 30
  else 31

/-- The `datetime.date` constructor's range check. -/
def PyDate.valid (d : PyDate) : Bool :=
  1 ≤ d.year && d.year ≤ 9999 && 1 ≤ d.month && d.month ≤ 12 &&
  1 ≤ d.day && d.day ≤ daysInMonth d.year d.month

/-- The decimal digit character for `n < 10`. -/
def digitChar (n : Nat) : Char := Char.ofNat (48 + n)

/-- `date.isoformat()`: `%04d-%02d-%02d`. -/
def isoformatDate (d : PyDate) : List Char :=
  [digitChar (d.year / 1000 % 10), digitChar (d.year / 100 % 10),
   digitChar (d.year / 10 % 10), digitChar (d.year % 10), '-',
   digitChar (d.month / 10 % 10), digitChar (d.month % 10), '-',
   digitChar (d.day / 10 % 10), digitChar (d.day % 10)]

/-- Decimal value of a digit string. -/
def decValue (s : List Char) : Nat :=
  s.foldl (fun acc c => 10 * acc + (c.toNat - 48)) 0

/-- `datetime.datetime.strptime(s, "%Y-%m-%d").date()`: three dash-separated
all-digit fields (year up to 4 digits, month and day up to 2), range-checked
by the `date` constructor; `none` models `ValueError`. -/
def parseDate (s : List Char) : Option PyDate :=
  match splitOnChar '-' s with
  | [ys, ms, ds] =>
    if (ys.all isDigitB && 1 ≤ ys.length && ys.length ≤ 4) &&
       (ms.all isDigitB && 1 ≤ ms.length && ms.length ≤ 2) &&
       (ds.all isDigitB && 1 ≤ ds.length && ds.length ≤ 2) then
      let d : PyDate := ⟨decValue ys, decValue ms, decValue ds⟩
      if d.valid then some d else Option.none
    else Option.none
  | _ => Option.none

/-- `ProcessorConfig` as constructed by `__post_init__` (`config.py:12-35`):
paths are `Path` objects, the start date a `datetime.date`. -/
structure ProcessorConfig where
  source_folder : PPath
  supplementary_folder : Option PPath
  appendix_file : Option PPath
  output_folder : PPath
  start_date : PyDate
  file_pattern : List Char
  id_pattern : List Char
  recursive : Bool
deriving DecidableEq

/-- The flat key/value record produced by `to_dict` / consumed by `from_dict`
(`None` = JSON `null`). -/
structure ConfigRecord where
  source_folder : List Char
  supplementary_folder : Option (List Char)
  appendix_file : Option (List Char)
  output_folder : List Char
  start_date : List Char
  file_pattern : List Char
  id_pattern : List Char
  recursive : Bool
deriving DecidableEq

/-- `ProcessorConfig.to_dict` (`config.py:65-76`).  A `Path` object is always
truthy, so the optional fields serialize to `str(path)` or `null`. -/
def to_dict (c : ProcessorConfig) : ConfigRecord :=
  { source_folder := renderPath c.source_folder
    supplementary_folder := c.supplementary_folder.map renderPath
    appendix_file := c.appendix_file.map renderPath
    output_folder := renderPath c.output_folder
    start_date := isoformatDate c.start_date
    file_pattern := c.file_pattern
    id_pattern := c.id_pattern
    recursive := c.recursive }

/-- `ProcessorConfig.from_dict` (`config.py:78-86`) followed by
`__post_init__`: parse the date (a `ValueError` propagates to the caller,
modelled as `none`); convert nonempty path strings to `Path`s.  (An empty
optional path string is kept as a raw `""` by `__post_init__` and then
serializes back to `null`; observably it equals `none` here.) -/
def from_dict (r : ConfigRecord) : Option ProcessorConfig :=
  match parseDate r.start_date with
  | Option.none => Option.none
  | some d =>
    some
      { source_folder := parsePath r.source_folder
        supplementary_folder :=
          r.supplementary_folder.bind
            (fun s => if s = [] then Option.none else some (parsePath s))
        appendix_file :=
          r.appendix_file.bind
            (fun s => if s = [] then Option.none else some (parsePath s))
        output_folder := parsePath r.output_folder
        start_date := d
        file_pattern := r.file_pattern
        id_pattern := r.id_pattern
        recursive := r.recursive }

/-! ## Lemmas: the derivative matcher on the patterns in use -/

theorem uint32_le_iff (a b : UInt32) : a ≤ b ↔ a.toNat ≤ b.toNat := by
  simp [UInt32.le_def, BitVec.le_def, UInt32.toNat]

theorem char_isUpper_iff (c : Char) : c.isUpper = (65 ≤ c.toNat && c.toNat ≤ 90) := by
  simp only [Char.isUpper, Char.toNat, uint32_le_iff]
  norm_num

theorem char_isLower_iff (c : Char) : c.isLower = (97 ≤ c.toNat && c.toNat ≤ 122) := by
  simp only [Char.isLower, Char.toNat, uint32_le_iff]
  norm_num

theorem char_toNat_ofNat (n : Nat) (h : n.isValidChar) : (Char.ofNat n).toNat = n := by
  simp [Char.ofNat, dif_pos h, Char.ofNatAux, Char.toNat, UInt32.toNat]

theorem pyLower_lowerAlpha (c : Char) :
    isLowerAlphaB (pyLower c) = (c.isUpper || c.isLower) := by
  unfold pyLower
  by_cases h : 65 ≤ c.toNat ∧ c.toNat ≤ 90
  · rw [if_pos h]
    have hv : (c.toNat + 32).isValidChar := by left; omega
    simp only [isLowerAlphaB, char_toNat_ofNat _ hv, char_isUpper_iff, char_isLower_iff]
    rw [Bool.eq_iff_iff]
    simp only [Bool.and_eq_true, Bool.or_eq_true, decide_eq_true_eq]
    omega
  · rw [if_neg h]
    simp only [isLowerAlphaB, char_isUpper_iff, char_isLower_iff]
    rw [Bool.eq_iff_iff]
    simp only [Bool.and_eq_true, Bool.or_eq_true, decide_eq_true_eq]
    omega

theorem pyLower_digit (c : Char) : isDigitB (pyLower c) = isDigitB c := by
  unfold pyLower
  by_cases h : 65 ≤ c.toNat ∧ c.toNat ≤ 90
  · rw [if_pos h]
    have hv : (c.toNat + 32).isValidChar := by left; omega
    simp only [isDigitB, char_toNat_ofNat _ hv]
    rw [Bool.eq_iff_iff]
    simp only [Bool.and_eq_true, decide_eq_true_eq]
    omega
  · rw [if_neg h]

theorem acceptsL_re_none (s : List Char) : RE.none.acceptsL s = false := by
  induction s with
  | nil => rfl
  | cons c t ih => simpa [RE.none, RE.acceptsL, RE.deriv] using ih

theorem acceptsL_seq_re_none (r : RE) (s : List Char) :
    (RE.seq RE.none r).acceptsL s = false := by
  induction s with
  | nil => simp [RE.acceptsL, RE.nullable, RE.none]
  | cons c t ih => simpa [RE.none, RE.acceptsL, RE.deriv, RE.nullable] using ih

theorem acceptsL_alt (a b : RE) (s : List Char) :
    (RE.alt a b).acceptsL s = (a.acceptsL s || b.acceptsL s) := by
  induction s generalizing a b with
  | nil => simp [RE.acceptsL, RE.nullable]
  | cons c t ih => simp [RE.acceptsL, RE.deriv, ih]

theorem acceptsL_seq_eps (r : RE) (s : List Char) :
    (RE.seq RE.eps r).acceptsL s = r.acceptsL s := by
  cases s with
  | nil => simp [RE.acceptsL, RE.nullable]
  | cons c t =>
    simp [RE.acceptsL, RE.deriv, RE.nullable, acceptsL_alt, acceptsL_seq_re_none]

theorem acceptsL_seq_cls (p : Char → Bool) (r : RE) (s : List Char) :
    (RE.seq (RE.cls p) r).acceptsL s =
      (match s with
       | [] => false
       | c :: t => p c && r.acceptsL t) := by
  cases s with
  | nil => simp [RE.acceptsL, RE.nullable]
  | cons c t =>
    by_cases hp : p c
    · simp [RE.acceptsL, RE.deriv, RE.nullable, hp, acceptsL_seq_eps]
    · simp [RE.acceptsL, RE.deriv, RE.nullable, hp, acceptsL_seq_re_none]

theorem acceptsL_star_cls (p : Char → Bool) (s : List Char) :
    (RE.star (RE.cls p)).acceptsL s = s.all p := by
  induction s with
  | nil => simp [RE.acceptsL, RE.nullable]
  | cons c t ih =>
    by_cases hp : p c
    · simp [RE.acceptsL, RE.deriv, hp, acceptsL_seq_eps, ih]
    · simp [RE.acceptsL, RE.deriv, hp, acceptsL_seq_re_none]

/-- The derivative matcher agrees with the combinatorial description of
`^[A-Za-z]\d+$` on lowered input. -/
theorem acceptsL_defaultCore (w : List Char) :
    defaultPattern.core.acceptsL w =
      (match w with
       | c :: d :: t => isLowerAlphaB c && (isDigitB d && t.all isDigitB)
       | _ => false) := by
  cases w with
  | nil => simp [defaultPattern, RE.acceptsL, RE.nullable]
  | cons c t =>
    cases t with
    | nil =>
      simp [defaultPattern, acceptsL_seq_cls, RE.acceptsL, RE.nullable]
    | cons d u =>
      simp [defaultPattern, acceptsL_seq_cls, acceptsL_star_cls]

/-- Digit-ness of every character is unchanged by the `IGNORECASE` fold. -/
theorem all_digit_map_pyLower (u : List Char) :
    (u.map pyLower).all isDigitB = u.all isDigitB := by
  induction u with
  | nil => rfl
  | cons c t ih => simp [pyLower_digit, ih]

/-- `re.match(defaultPattern, v, re.IGNORECASE)` is exactly: one ASCII letter
followed by one or more ASCII digits. -/
theorem reMatchPy_default (v : List Char) : reMatchPy defaultPattern v = specDefaultId v := by
  have h0 : reMatchPy defaultPattern v = defaultPattern.core.acceptsL (v.map pyLower) := rfl
  rw [h0, acceptsL_defaultCore]
  cases v with
  | nil => rfl
  | cons c t =>
    cases t with
    | nil => simp [specDefaultId]
    | cons d u =>
      simp only [List.map_cons, specDefaultId, pyLower_lowerAlpha, pyLower_digit,
        all_digit_map_pyLower, List.isEmpty_cons, Bool.not_false, Bool.and_true,
        List.all_cons]

/-! ## Claims C1 and C7: the identifier extractor -/

/-- A caller-supplied pattern with no `$` anchor, e.g. `[A-Za-z]\d+`. -/
def prefixPattern : PyPattern := { core := defaultPattern.core, anchoredEnd := false }

/-- C1 (counterexample).  The claim states that `extractIdentifier(f,
defaultPattern)` returns a value only if `f` contains a space.  But for the
space-free filename `"A123"` the candidate is the whole filename and the
extractor returns `"A123"`. -/
theorem claim_C1_counterexample :
    extract_id_from_filename defaultPattern "A123".data = some "A123".data ∧
      "A123".data.contains ' ' = false := by
  constructor
  · rfl
  · rfl

/-- C1 (amended).  For every filename `f`, `extract_id_from_filename f
defaultPattern` returns a value iff the candidate token — the
whitespace-stripped text before the first space of the stripped filename,
which is the whole stripped filename when it contains no space — matches
`^[A-Za-z]\d+$` case-insensitively (one ASCII letter then one or more
digits); the returned value is that candidate token. -/
theorem claim_C1 (f v : List Char) :
    extract_id_from_filename defaultPattern f = some v ↔
      (v = candidateToken f ∧ specDefaultId v = true) := by
  unfold extract_id_from_filename
  by_cases hf : f = []
  · subst hf
    rw [if_pos rfl]
    constructor
    · intro h; cases h
    · rintro ⟨rfl, hv⟩
      exact absurd hv (by decide)
  · rw [if_neg hf, reMatchPy_default]
    by_cases hm : specDefaultId (candidateToken f) = true
    · rw [if_pos hm]
      constructor
      · intro h
        cases h
        exact ⟨rfl, hm⟩
      · rintro ⟨rfl, _⟩
        rfl
    · rw [if_neg hm]
      constructor
      · intro h; cases h
      · rintro ⟨rfl, hv⟩
        exact absurd hv hm

/-- C7 (counterexample).  The claim states that for every caller-supplied
pattern the candidate is accepted only when it matches the pattern anchored
at both start and end.  With the unanchored pattern `[A-Za-z]\d+` and
filename `"A1x r"`, `re.match` succeeds on the proper prefix `"A1"` and the
extractor returns the full token `"A1x"`, which does not match the pattern
anchored at both ends. -/
theorem claim_C7_counterexample :
    extract_id_from_filename prefixPattern "A1x r".data = some "A1x".data ∧
      prefixPattern.core.acceptsL ("A1x".data.map pyLower) = false := by
  constructor
  · rfl
  · rfl

/-- C7 (amended).  For every filename and caller-supplied pattern, a returned
identifier satisfies `re.match` semantics — the pattern matches some prefix of
the token, anchored at the start only, case-insensitively; only when the
pattern is end-anchored (`…$`, as the default pattern is) does the whole
token match the pattern anchored at both ends, so that a token of which only
a proper prefix matches is never returned. -/
theorem claim_C7 (pat : PyPattern) (f v : List Char) :
    extract_id_from_filename pat f = some v →
      reMatchPy pat v = true ∧
        (pat.anchoredEnd = true → pat.core.acceptsL (v.map pyLower) = true) := by
  intro h
  unfold extract_id_from_filename at h
  by_cases hf : f = []
  · rw [if_pos hf] at h; cases h
  · rw [if_neg hf] at h
    by_cases hm : reMatchPy pat (candidateToken f) = true
    · rw [if_pos hm] at h
      cases h
      refine ⟨hm, fun hae => ?_⟩
      unfold reMatchPy at hm
      rwa [hae, if_pos rfl] at hm
    · rw [if_neg hm] at h; cases h

/-- C7 (witness): instantiating the amended claim at the default pattern and
the filename `"A123 report.pdf"`. -/
theorem claim_C7_witness :
    reMatchPy defaultPattern "A123".data = true ∧
      (defaultPattern.anchoredEnd = true →
        defaultPattern.core.acceptsL ("A123".data.map pyLower) = true) :=
  claim_C7 defaultPattern "A123 report.pdf".data "A123".data (by rfl)

/-! ## Lemmas: the per-file step and the run loop -/

/-- `_process_single_document` touches exactly one of `processed`/`errors`,
according to the merge outcome. -/
theorem process_single_document_cases (env : Env) (cfg : RunConfig) (stats : Stats)
    (p doc_id : List Char) :
    process_single_document env cfg stats p doc_id =
      (if (merge_pdf_files env (buildPlan env cfg p doc_id) (outputPath cfg p)).isSome
       then { stats with processed := stats.processed + 1 }
       else { stats with errors := stats.errors + 1 }) := by
  unfold process_single_document
  cases hm : merge_pdf_files env (buildPlan env cfg p doc_id) (outputPath cfg p) <;>
    simp [hm]

/-- Each scan-loop iteration adds 1 to `processed + errors` exactly when the
document is admitted, and 0 otherwise. -/
theorem processPath_attempt_count (env : Env) (cfg : RunConfig) (stats : Stats)
    (p : List Char) :
    (processPath env cfg stats p).processed + (processPath env cfg stats p).errors =
      stats.processed + stats.errors + (if admittedB env cfg p = true then 1 else 0) := by
  by_cases hf : env.is_file p = true
  · cases hd : get_file_date env p with
    | some d =>
      by_cases hlt : d < cfg.start_date
      · simp [processPath, admittedB, hf, hd, hlt]
      · cases hex : extract_id_from_filename cfg.id_pattern (pathName p) with
        | none => simp [processPath, admittedB, hf, hd, hlt, hex]
        | some doc_id =>
          by_cases hid : doc_id = []
          · simp [processPath, admittedB, hf, hd, hlt, hex, hid]
          · have hstep : processPath env cfg stats p =
                process_single_document env cfg stats p doc_id := by
              rw [processPath, if_neg (by simp [hf]), if_neg (by simp [hd, hlt]), hex]
              simp [hid]
            rw [hstep, process_single_document_cases]
            have hadm : admittedB env cfg p = true := by
              simp [admittedB, hf, hd, hlt, hex, List.isEmpty_iff, hid]
            rw [hadm]
            cases hm :
                (merge_pdf_files env (buildPlan env cfg p doc_id) (outputPath cfg p)).isSome <;>
              simp [hm] <;> omega
    | none =>
      cases hex : extract_id_from_filename cfg.id_pattern (pathName p) with
      | none => simp [processPath, admittedB, hf, hd, hex]
      | some doc_id =>
        by_cases hid : doc_id = []
        · simp [processPath, admittedB, hf, hd, hex, hid]
        · have hstep : processPath env cfg stats p =
              process_single_document env cfg stats p doc_id := by
            rw [processPath, if_neg (by simp [hf]), if_neg (by simp [hd]), hex]
            simp [hid]
          rw [hstep, process_single_document_cases]
          have hadm : admittedB env cfg p = true := by
            simp [admittedB, hf, hd, hex, List.isEmpty_iff, hid]
          rw [hadm]
          cases hm :
              (merge_pdf_files env (buildPlan env cfg p doc_id) (outputPath cfg p)).isSome <;>
            simp [hm] <;> omega
  · simp [processPath, admittedB, hf]

/-- Folding the scan loop over any file list counts one attempt per admitted
file. -/
theorem foldl_attempt_count (env : Env) (cfg : RunConfig) (l : List (List Char))
    (stats : Stats) :
    (l.foldl (processPath env cfg) stats).processed +
        (l.foldl (processPath env cfg) stats).errors =
      stats.processed + stats.errors + l.countP (admittedB env cfg) := by
  induction l generalizing stats with
  | nil => simp
  | cons p t ih =>
    simp only [List.foldl_cons, List.countP_cons]
    rw [ih, processPath_attempt_count]
    by_cases h : admittedB env cfg p = true
    · simp [h]
      omega
    · simp [h]

/-- The scan-loop step on an admitted document is exactly the
success/failure case split of `_process_single_document`. -/
theorem processPath_admitted (env : Env) (cfg : RunConfig) (stats : Stats)
    (p doc_id : List Char)
    (hfile : env.is_file p = true)
    (hdc : (match get_file_date env p with
            | some d => decide (d < cfg.start_date)
            | Option.none => false) = false)
    (hex : extract_id_from_filename cfg.id_pattern (pathName p) = some doc_id)
    (hid : doc_id ≠ []) :
    processPath env cfg stats p =
      (if (merge_pdf_files env (buildPlan env cfg p doc_id) (outputPath cfg p)).isSome
       then { stats with processed := stats.processed + 1 }
       else { stats with errors := stats.errors + 1 }) := by
  have hstep : processPath env cfg stats p =
      process_single_document env cfg stats p doc_id := by
    rw [processPath, if_neg (by simp [hfile]), if_neg (by simp [hdc]), hex]
    simp [hid]
  rw [hstep, process_single_document_cases]

/-! ## Concrete run used by the witnesses -/

def wFileNew : List Char := "src/A100 report.pdf".data
def wFileOld : List Char := "src/B7 old.pdf".data
def wFileBad : List Char := "src/badname.pdf".data
def wDirPdf : List Char := "src/dir.pdf".data
def wSupp1 : List Char := "supp/A100 supp.pdf".data
def wSupp2 : List Char := "supp/A100 zz.pdf".data

/-- A small filesystem: one in-scope document, one document older than the
cutoff, one document with unreadable date and no identifier, one directory
matching the glob, two supplementary matches, and an appendix. -/
def envW : Env :=
  { listSource := [wFileNew, wFileOld, wFileBad, wDirPdf]
    pathExists := fun p =>
      ["src".data, "out".data, "supp".data, "append.pdf".data,
        wFileNew, wFileOld, wFileBad, wDirPdf, wSupp1, wSupp2].contains p
    is_file := fun p =>
      [wFileNew, wFileOld, wFileBad, "append.pdf".data, wSupp1, wSupp2].contains p
    mtime := fun p =>
      if p = wFileNew then some 100
      else if p = wFileOld then some 5
      else Option.none
    listing := fun p =>
      if p = "supp".data then
        ["A100 zz.pdf".data, "A100 supp.pdf".data, "other.pdf".data]
      else []
    mkdirOk := fun _ => true
    pageCount := fun p => if p = wSupp1 then 3 else 2
    readOk := fun _ => true
    writeOk := fun _ => true }

def cfgW : RunConfig :=
  { source_folder := "src".data
    supplementary_folder := some "supp".data
    appendix_file := some "append.pdf".data
    output_folder := "out".data
    start_date := 50
    id_pattern := defaultPattern
    recursive := false }

/-! ## Claims C3, C4, C6, C9: the processor -/

/-- C3.  (a) A discovered regular file whose resolved date is strictly before
the start date only increments `skippedDate` — full record equality, so it is
not processed and the identifier is irrelevant (the date check precedes
extraction).  (b) A discovered file whose date cannot be resolved never
increments `skippedDate`. -/
theorem claim_C3 :
    (∀ (env : Env) (cfg : RunConfig) (stats : Stats) (p : List Char) (d : Int),
        env.is_file p = true →
        get_file_date env p = some d →
        d < cfg.start_date →
        processPath env cfg stats p =
          { stats with skipped_date := stats.skipped_date + 1 }) ∧
    (∀ (env : Env) (cfg : RunConfig) (stats : Stats) (p : List Char),
        get_file_date env p = Option.none →
        (processPath env cfg stats p).skipped_date = stats.skipped_date) := by
  constructor
  · intro env cfg stats p d hfile hdate hlt
    rw [processPath, if_neg (by simp [hfile]), if_pos (by simp [hdate, hlt])]
  · intro env cfg stats p hdate
    by_cases hf : env.is_file p = true
    · rw [processPath, if_neg (by simp [hf]), if_neg (by simp [hdate])]
      cases hex : extract_id_from_filename cfg.id_pattern (pathName p) with
      | none => simp
      | some doc_id =>
        by_cases hid : doc_id = []
        · simp [hid]
        · rw [show (match some doc_id with
                | some di =>
                  if di = [] then
                    { stats with skipped_format := stats.skipped_format + 1 }
                  else process_single_document env cfg stats p di
                | Option.none =>
                  { stats with skipped_format := stats.skipped_format + 1 } : Stats) =
              process_single_document env cfg stats p doc_id by simp [hid],
            process_single_document_cases]
          by_cases hm :
              (merge_pdf_files env (buildPlan env cfg p doc_id) (outputPath cfg p)).isSome = true
          · simp [hm]
          · simp [hm]
    · simp [processPath, hf]

/-- C3 (witness): in the concrete run, the old document only bumps
`skippedDate`, and the document with unresolvable date leaves `skippedDate`
untouched. -/
theorem claim_C3_witness :
    processPath envW cfgW Stats.zero wFileOld =
        { Stats.zero with skipped_date := Stats.zero.skipped_date + 1 } ∧
      (processPath envW cfgW Stats.zero wFileBad).skipped_date = Stats.zero.skipped_date :=
  ⟨claim_C3.1 envW cfgW Stats.zero wFileOld 5 (by decide) (by decide) (by decide),
   claim_C3.2 envW cfgW Stats.zero wFileBad (by decide)⟩

/-- C4.  (a) For an admitted document with a supplementary match that is a
regular file and a configured appendix that is a regular file, the merge plan
is exactly `[source (all pages), first match (0, -2), appendix (all pages)]`
in that order.  (b) For every admitted document the plan is non-empty and
begins with the full main source document. -/
theorem claim_C4 :
    (∀ (env : Env) (cfg : RunConfig) (p doc_id folder a first : List Char)
        (rest : List (List Char)),
        cfg.supplementary_folder = some folder →
        find_matching_files env folder doc_id pdfExtension = first :: rest →
        env.is_file first = true →
        cfg.appendix_file = some a →
        env.is_file a = true →
        buildPlan env cfg p doc_id =
          [⟨p, Option.none⟩, ⟨first, some (0, -2)⟩, ⟨a, Option.none⟩]) ∧
    (∀ (env : Env) (cfg : RunConfig) (p doc_id : List Char),
        ∃ rest, buildPlan env cfg p doc_id = ⟨p, Option.none⟩ :: rest) := by
  constructor
  · intro env cfg p doc_id folder a first rest hsupp hfind hfirst happx hafile
    simp [buildPlan, hsupp, hfind, hfirst, happx, hafile]
  · intro env cfg p doc_id
    exact ⟨_, rfl⟩

/-- C4 (witness): the concrete admitted document, with two supplementary
matches and a configured appendix, yields exactly the three-entry plan with
the lexicographically first match. -/
theorem claim_C4_witness :
    buildPlan envW cfgW wFileNew "A100".data =
        [⟨wFileNew, Option.none⟩, ⟨wSupp1, some (0, -2)⟩, ⟨"append.pdf".data, Option.none⟩] ∧
      ∃ rest, buildPlan envW cfgW wFileNew "A100".data = ⟨wFileNew, Option.none⟩ :: rest :=
  ⟨claim_C4.1 envW cfgW wFileNew "A100".data "supp".data "append.pdf".data wSupp1 [wSupp2]
      rfl (by decide) (by decide) rfl (by decide),
   claim_C4.2 envW cfgW wFileNew "A100".data⟩

/-- C6.  (a) For every admitted document (regular file, not before the start
date, truthy extracted id) the step increments exactly one of
`processed`/`errors`: `processed` on merge success, `errors` on merge failure
— full record equality, so the skip counters are untouched either way.
(b) Globally, a completed run performs exactly one merge attempt per admitted
discovered file: `processed + errors` equals the number of admitted files, so
a failure never aborts the run and no document is retried. -/
theorem claim_C6 :
    (∀ (env : Env) (cfg : RunConfig) (stats : Stats) (p doc_id : List Char),
        env.is_file p = true →
        (∀ d : Int, get_file_date env p = some d → ¬ d < cfg.start_date) →
        extract_id_from_filename cfg.id_pattern (pathName p) = some doc_id →
        doc_id ≠ [] →
        processPath env cfg stats p =
          (if (merge_pdf_files env (buildPlan env cfg p doc_id) (outputPath cfg p)).isSome
           then { stats with processed := stats.processed + 1 }
           else { stats with errors := stats.errors + 1 })) ∧
    (∀ (env : Env) (cfg : RunConfig),
        validateConfig env cfg = true →
        env.listSource ≠ [] →
        (process_documents env cfg).processed + (process_documents env cfg).errors =
          env.listSource.countP (admittedB env cfg)) := by
  constructor
  · intro env cfg stats p doc_id hfile hdate hex hid
    have hdc : (match get_file_date env p with
        | some d => decide (d < cfg.start_date)
        | Option.none => false) = false := by
      cases hd : get_file_date env p with
      | some d => simpa using hdate d hd
      | none => rfl
    exact processPath_admitted env cfg stats p doc_id hfile hdc hex hid
  · intro env cfg hval hne
    rw [process_documents, if_neg (by simp [hval]), if_neg (by simp [hne])]
    simpa [Stats.zero] using foldl_attempt_count env cfg env.listSource Stats.zero

/-- C6 (witness): the concrete admitted document merges successfully and bumps
exactly `processed`; the concrete run makes one attempt for its one admitted
file. -/
theorem claim_C6_witness :
    processPath envW cfgW Stats.zero wFileNew =
        (if (merge_pdf_files envW (buildPlan envW cfgW wFileNew "A100".data)
              (outputPath cfgW wFileNew)).isSome
         then { Stats.zero with processed := Stats.zero.processed + 1 }
         else { Stats.zero with errors := Stats.zero.errors + 1 }) ∧
      (process_documents envW cfgW).processed + (process_documents envW cfgW).errors =
        envW.listSource.countP (admittedB envW cfgW) :=
  ⟨claim_C6.1 envW cfgW Stats.zero wFileNew "A100".data (by decide)
      (fun d h => by
        rw [show get_file_date envW wFileNew = some 100 from rfl] at h
        injection h with h2
        rw [show cfgW.start_date = 50 from rfl, ← h2]
        decide)
      (by decide) (by decide),
   claim_C6.2 envW cfgW (by decide) (by decide)⟩

/-- C9.  (a) A discovered path that is not a regular file is skipped without
touching any of the four counters.  (b) Consequently, in the concrete run —
whose discovery list contains a directory matching `*.pdf` — the sum of the
four counters is strictly less than the number of discovered paths. -/
theorem claim_C9 :
    (∀ (env : Env) (cfg : RunConfig) (stats : Stats) (p : List Char),
        env.is_file p = false → processPath env cfg stats p = stats) ∧
    (process_documents envW cfgW).processed + (process_documents envW cfgW).skipped_format +
        (process_documents envW cfgW).skipped_date + (process_documents envW cfgW).errors <
      envW.listSource.length := by
  constructor
  · intro env cfg stats p h
    simp [processPath, h]
  · decide

/-- C9 (witness): the concrete directory `src/dir.pdf` leaves the statistics
record unchanged. -/
theorem claim_C9_witness :
    processPath envW cfgW Stats.zero wDirPdf = Stats.zero :=
  claim_C9.1 envW cfgW Stats.zero wDirPdf (by decide)

/-! ## Claims C2 and C10: the concatenation primitive -/

/-- A filesystem for exercising the page-range handling: a 3-page file and a
1-page file, all readable and writable. -/
def envM : Env :=
  { listSource := []
    pathExists := fun p => p = "three.pdf".data || p = "one.pdf".data
    is_file := fun _ => true
    mtime := fun _ => Option.none
    listing := fun _ => []
    mkdirOk := fun _ => true
    pageCount := fun p => if p = "three.pdf".data then 3 else 1
    readOk := fun _ => true
    writeOk := fun _ => true }

/-- C2 (code bug, evaluated at the failing inputs).  The claim (and the code's
own log message "Using all available pages") says that when the resolved end
meets or exceeds the page count all available pages are included, and that a
1-page file with range `(0, -2)` is clamped to all available pages without
failing.  In fact: (a) for a 3-page file with requested range `(0, 5)`
(resolved end `5 ≥ 3`) the clamp branch appends `pages=(0, total-1)`, i.e.
only pages 0 and 1, dropping the last page; (b) for a 1-page file with range
`(0, -2)` the resolved end is `-1 < 1`, the tuple is passed through as
`range(0, -2)` and zero pages are appended; (c) the merge nevertheless
reports success. -/
theorem claim_C2_eval :
    entryAppend envM ⟨"three.pdf".data, some (0, 5)⟩ =
        some [("three.pdf".data, 0), ("three.pdf".data, 1)] ∧
      entryAppend envM ⟨"one.pdf".data, some (0, -2)⟩ = some [] ∧
      merge_pdf_files envM [⟨"one.pdf".data, some (0, -2)⟩] "out.pdf".data = some [] := by
  refine ⟨by decide, by decide, by decide⟩

/-- A plan entry of the shape the planner builds never raises inside the merge
loop: full appends always succeed, and `(0, -2)` resolves to a (possibly
empty) in-range `range`. -/
theorem entryAppend_isSome (env : Env) (e : MergeEntry)
    (hp : e.pages = Option.none ∨ e.pages = some (0, -2))
    (hr : env.pathExists e.path = true → env.readOk e.path = true) :
    entryAppend env e ≠ Option.none := by
  unfold entryAppend
  by_cases hex : env.pathExists e.path = true
  · rw [if_neg (by simp [hex]), if_neg (by simp [hr hex])]
    rcases hp with hp | hp
    · simp [hp]
    · by_cases ht : 0 < env.pageCount e.path
      · have hcl : ¬ ((env.pageCount e.path : Int) ≤ (env.pageCount e.path : Int) + (-2)) := by
          omega
        simp [hp, ht, hcl, appendRange, pyRange, List.mapM.loop]
      · simp [hp, ht]
  · simp [hex]

/-- If no entry raises, the merge loop collects every entry's contribution. -/
theorem merge_mapM (env : Env) (files : List MergeEntry)
    (h : ∀ e ∈ files, entryAppend env e ≠ Option.none) :
    files.mapM (entryAppend env) =
      some (files.map (fun e => (entryAppend env e).getD [])) := by
  induction files with
  | nil => rfl
  | cons e t ih =>
    rw [List.mapM_cons]
    cases he : entryAppend env e with
    | none => exact absurd he (h e (by simp))
    | some c =>
      rw [ih (fun x hx => h x (by simp [hx]))]
      simp [he]

/-- C10.  For every plan of the shapes the planner builds (full file or
`(0, -2)`), on a filesystem where the existing entries are readable and the
output is writable: a plan entry whose path does not exist contributes no
pages but causes no failure — the merge still writes the concatenation of the
remaining entries' pages and reports success. -/
theorem claim_C10 (env : Env) (files : List MergeEntry) (output : List Char) :
    files ≠ [] →
    (∀ e ∈ files, e.pages = Option.none ∨ e.pages = some (0, -2)) →
    (∀ e ∈ files, env.pathExists e.path = true → env.readOk e.path = true) →
    env.writeOk output = true →
    merge_pdf_files env files output =
        some ((files.map (fun e => (entryAppend env e).getD [])).flatten) ∧
      ∀ e ∈ files, env.pathExists e.path = false → entryAppend env e = some [] := by
  intro hne hp hr hw
  constructor
  · rw [merge_pdf_files, if_neg hne,
      merge_mapM env files (fun e he => entryAppend_isSome env e (hp e he) (hr e he))]
    simp [hw]
  · intro e _ hmiss
    simp [entryAppend, hmiss]

/-- A filesystem where the supplementary entry's path is missing at merge
time. -/
def envG : Env :=
  { listSource := []
    pathExists := fun p => p = "main.pdf".data || p = "append.pdf".data
    is_file := fun _ => true
    mtime := fun _ => Option.none
    listing := fun _ => []
    mkdirOk := fun _ => true
    pageCount := fun p => if p = "main.pdf".data then 2 else 1
    readOk := fun _ => true
    writeOk := fun _ => true }

/-- C10 (witness): a three-entry plan whose middle entry's file is gone still
merges successfully, the output consisting of the other entries' pages. -/
theorem claim_C10_witness :
    merge_pdf_files envG
        [⟨"main.pdf".data, Option.none⟩, ⟨"gone.pdf".data, some (0, -2)⟩,
          ⟨"append.pdf".data, Option.none⟩] "out.pdf".data =
      some
        (([⟨"main.pdf".data, Option.none⟩, ⟨"gone.pdf".data, some (0, -2)⟩,
            ⟨"append.pdf".data, Option.none⟩].map
          (fun e => (entryAppend envG e).getD [])).flatten) ∧
    ∀ e ∈ [(⟨"main.pdf".data, Option.none⟩ : MergeEntry),
        ⟨"gone.pdf".data, some (0, -2)⟩, ⟨"append.pdf".data, Option.none⟩],
      envG.pathExists e.path = false → entryAppend envG e = some [] :=
  claim_C10 envG
    [⟨"main.pdf".data, Option.none⟩, ⟨"gone.pdf".data, some (0, -2)⟩,
      ⟨"append.pdf".data, Option.none⟩] "out.pdf".data
    (by decide) (by decide) (by decide) (by decide)

/-! ## Lemmas: the glob pattern built by `find_matching_files` -/

/-- A literal-only pattern segment consumes exactly itself as a prefix. -/
theorem gmatch_lits (P : List Char) (rest : List GTok) (s : List Char) :
    gmatch (P.map GTok.lit ++ rest) s =
      (P.isPrefixOf s && gmatch rest (s.drop P.length)) := by
  induction P generalizing s with
  | nil => simp [List.isPrefixOf]
  | cons c P ih =>
    cases s with
    | nil => simp [gmatch, List.isPrefixOf]
    | cons x s2 =>
      simp only [List.map_cons, List.cons_append, gmatch, List.append_eq,
        List.isPrefixOf, List.length_cons, List.drop_succ_cons, ih s2]
      rw [Bool.eq_iff_iff]
      simp only [Bool.and_eq_true, decide_eq_true_eq, beq_iff_eq, and_assoc]

/-- A trailing `* suffix` segment of literals matches exactly the names ending
in that suffix. -/
theorem gmatch_star_lits (S : List Char) (s : List Char) :
    gmatch (GTok.star :: S.map GTok.lit) s = S.isSuffixOf s := by
  have hlits : ∀ t : List Char, gmatch (S.map GTok.lit) t = decide (t = S) := by
    intro t
    have h := gmatch_lits S [] t
    rw [List.append_nil] at h
    rw [h, Bool.eq_iff_iff]
    simp only [Bool.and_eq_true, List.isPrefixOf_iff_prefix, decide_eq_true_eq]
    rw [show gmatch [] (t.drop S.length) = (t.drop S.length).isEmpty from rfl]
    simp only [List.isEmpty_iff, List.drop_eq_nil_iff]
    constructor
    · rintro ⟨hpre, hlen⟩
      exact (hpre.eq_of_length (Nat.le_antisymm hpre.length_le hlen)).symm
    · rintro rfl
      exact ⟨List.prefix_refl _, Nat.le_refl _⟩
  rw [show gmatch (GTok.star :: S.map GTok.lit) s =
      s.tails.any (fun t => gmatch (S.map GTok.lit) t) from rfl]
  rw [Bool.eq_iff_iff]
  simp only [List.any_eq_true, hlits, decide_eq_true_eq, List.mem_tails,
    List.isSuffixOf_iff_suffix]
  constructor
  · rintro ⟨t, hsuf, rfl⟩
    exact hsuf
  · intro hsuf
    exact ⟨S, hsuf, rfl⟩

/-- Being a suffix of `l.drop k` is being a suffix of `l` that fits in the
last `l.length - k` positions. -/
theorem suffix_drop_iff (S l : List Char) (k : Nat) :
    S <:+ l.drop k ↔ (S <:+ l ∧ S.length ≤ l.length - k) := by
  constructor
  · intro h
    refine ⟨h.trans (List.drop_suffix k l), ?_⟩
    have := h.length_le
    rwa [List.length_drop] at this
  · rintro ⟨⟨t, rfl⟩, hlen⟩
    by_cases hk : k ≤ t.length
    · rw [List.drop_append_of_le_length hk]
      exact ⟨t.drop k, rfl⟩
    · have hS : S = [] := by
        rw [List.length_append] at hlen
        exact List.eq_nil_of_length_eq_zero (show S.length = 0 by omega)
      subst hS
      exact List.nil_suffix

/-- `re.escape` leaves a string without special characters unchanged. -/
theorem reEscape_plain (s : List Char) (h : ∀ c ∈ s, isREspecial c = false) :
    reEscape s = s := by
  induction s with
  | nil => rfl
  | cons c t ih =>
    rw [reEscape, List.flatMap_cons, if_neg (by simp [h c (by simp)])]
    have := ih (fun x hx => h x (by simp [hx]))
    rw [reEscape] at this
    simp [this]

/-- Compiling a string without special characters yields only literals
(`*` and `?` are regex-special, hence escaped away earlier). -/
theorem globTokens_plain (s : List Char) (h : ∀ c ∈ s, isREspecial c = false) :
    globTokens s = s.map GTok.lit := by
  unfold globTokens
  refine List.map_congr_left (fun c hc => ?_)
  have hc2 := h c hc
  have h1 : ¬ c = '*' := by rintro rfl; simp [isREspecial] at hc2
  have h2 : ¬ c = '?' := by rintro rfl; simp [isREspecial] at hc2
  simp [h1, h2]

/-- The glob pattern `re.escape(id) ++ " *.pdf"` compiled, for a plain
identifier: literals `id ++ " "`, a star, then literals `".pdf"`. -/
theorem globTokens_id_pattern (id_value : List Char)
    (h : ∀ c ∈ id_value, isREspecial c = false) :
    globTokens (reEscape id_value ++ ' ' :: '*' :: pdfExtension) =
      (id_value ++ [' ']).map GTok.lit ++ GTok.star :: pdfExtension.map GTok.lit := by
  have h1 : globTokens (reEscape id_value) = id_value.map GTok.lit := by
    rw [reEscape_plain id_value h]
    exact globTokens_plain id_value h
  rw [show globTokens (reEscape id_value ++ ' ' :: '*' :: pdfExtension) =
        globTokens (reEscape id_value) ++ globTokens (' ' :: '*' :: pdfExtension) from
      List.map_append _ _ _,
    h1,
    show globTokens (' ' :: '*' :: pdfExtension) =
        GTok.lit ' ' :: GTok.star :: pdfExtension.map GTok.lit from rfl]
  simp

/-- Glob acceptance for a plain identifier is exactly: starts with
`"<id> "`, ends with `".pdf"`, and is long enough to contain both
non-overlapping. -/
theorem gmatch_id_pattern (id_value name : List Char)
    (h : ∀ c ∈ id_value, isREspecial c = false) :
    gmatch (globTokens (reEscape id_value ++ ' ' :: '*' :: pdfExtension)) name =
      ((id_value ++ [' ']).isPrefixOf name && pdfExtension.isSuffixOf name &&
        decide (id_value.length + 1 + 4 ≤ name.length)) := by
  rw [globTokens_id_pattern id_value h, gmatch_lits, gmatch_star_lits]
  rw [Bool.eq_iff_iff]
  simp only [Bool.and_eq_true, List.isPrefixOf_iff_prefix, List.isSuffixOf_iff_suffix,
    decide_eq_true_eq, suffix_drop_iff, List.length_append, List.length_cons,
    List.length_nil]
  have h4 : pdfExtension.length = 4 := rfl
  constructor
  · rintro ⟨hpre, hsuf, hlen⟩
    exact ⟨⟨hpre, hsuf⟩, by omega⟩
  · rintro ⟨⟨hpre, hsuf⟩, hlen⟩
    exact ⟨hpre, hsuf, by omega⟩

/-! ## Claim C5: the supplementary resolver -/

/-- A folder whose listing contains a file for the identifier `a.b`. -/
def env5 : Env :=
  { listSource := []
    pathExists := fun p => p = "supp".data
    is_file := fun _ => true
    mtime := fun _ => Option.none
    listing := fun p => if p = "supp".data then ["a.b x.pdf".data] else []
    mkdirOk := fun _ => true
    pageCount := fun _ => 1
    readOk := fun _ => true
    writeOk := fun _ => true }

/-- C5 (counterexample).  The claim states the result contains exactly the
files whose name begins with `"<identifier> "` and ends with the extension,
the identifier matched literally.  For the identifier `"a.b"`, `re.escape`
yields `"a\.b"`, and `Path.glob` treats the backslash as a literal character,
so the file `"a.b x.pdf"` — which does begin with `"a.b "` and end with
`".pdf"` — is not returned. -/
theorem claim_C5_counterexample :
    find_matching_files env5 "supp".data "a.b".data pdfExtension = [] ∧
      "a.b x.pdf".data ∈ env5.listing "supp".data ∧
      ("a.b".data ++ [' ']).isPrefixOf "a.b x.pdf".data = true ∧
      pdfExtension.isSuffixOf "a.b x.pdf".data = true := by
  refine ⟨by decide, by decide, by decide, by decide⟩

/-- C5 (amended).  `find_matching_files` returns `[]` when the folder is
absent or the identifier empty; otherwise it returns, for each name matched
by the glob pattern `re.escape(identifier) + " *" + extension`, the path
`folder/name`, sorted ascending.  For identifiers without regex-special
characters (in particular every identifier the default pattern can produce)
the matched names are exactly those that begin with the identifier followed
by one space and end with `".pdf"`; an identifier containing a regex-special
character is escaped with backslashes which the glob treats as literal
characters, so a name containing the identifier verbatim is in general not
matched (see the counterexample). -/
theorem claim_C5 :
    (∀ (env : Env) (folder id_value extension : List Char),
        env.pathExists folder = false →
        find_matching_files env folder id_value extension = []) ∧
    (∀ (env : Env) (folder extension : List Char),
        find_matching_files env folder [] extension = []) ∧
    (∀ (env : Env) (folder id_value : List Char),
        env.pathExists folder = true →
        id_value ≠ [] →
        (∀ c ∈ id_value, isREspecial c = false) →
        List.Sorted (fun a b => a ≤ b) (matchingNames env folder id_value pdfExtension) ∧
          (∀ name : List Char,
            name ∈ matchingNames env folder id_value pdfExtension ↔
              name ∈ env.listing folder ∧
                (id_value ++ [' ']).isPrefixOf name = true ∧
                pdfExtension.isSuffixOf name = true ∧
                id_value.length + 1 + 4 ≤ name.length) ∧
          find_matching_files env folder id_value pdfExtension =
            (matchingNames env folder id_value pdfExtension).map
              (fun name => folder ++ '/' :: name)) := by
  refine ⟨?_, ?_, ?_⟩
  · intro env folder id_value extension h
    rw [find_matching_files, if_pos (by simp [h])]
  · intro env folder extension
    rw [find_matching_files]
    by_cases h : env.pathExists folder = true
    · rw [if_neg (by simp [h]), if_pos rfl]
    · rw [if_pos (by simp [h])]
  · intro env folder id_value hex hid hplain
    refine ⟨List.sorted_insertionSort _ _, ?_, ?_⟩
    · intro name
      rw [matchingNames, List.mem_insertionSort, List.mem_filter,
        gmatch_id_pattern _ _ hplain]
      simp only [Bool.and_eq_true, decide_eq_true_eq, and_assoc]
    · rw [find_matching_files, if_neg (by simp [hex]), if_neg hid]

/-- C5 (witness): instantiating the amended claim on the concrete
supplementary folder and the identifier `"A100"`. -/
theorem claim_C5_witness :
    List.Sorted (fun a b => a ≤ b) (matchingNames envW "supp".data "A100".data pdfExtension) ∧
      (∀ name : List Char,
        name ∈ matchingNames envW "supp".data "A100".data pdfExtension ↔
          name ∈ envW.listing "supp".data ∧
            ("A100".data ++ [' ']).isPrefixOf name = true ∧
            pdfExtension.isSuffixOf name = true ∧
            "A100".data.length + 1 + 4 ≤ name.length) ∧
      find_matching_files envW "supp".data "A100".data pdfExtension =
        (matchingNames envW "supp".data "A100".data pdfExtension).map
          (fun name => "supp".data ++ '/' :: name) :=
  claim_C5.2.2 envW "supp".data "A100".data (by decide) (by decide) (by decide)

/-! ## Lemmas: `str.split` / `str.join` round trips used by the path and date
parsers -/

theorem splitOnChar_no_sep (sep : Char) (q : List Char)
    (h : ∀ c ∈ q, ¬ c = sep) : splitOnChar sep q = [q] := by
  induction q with
  | nil => rfl
  | cons c t ih =>
    rw [splitOnChar]
    rw [ih (fun x hx => h x (by simp [hx]))]
    simp [h c (by simp)]

theorem splitOnChar_append_sep (sep : Char) (q r : List Char)
    (h : ∀ c ∈ q, ¬ c = sep) :
    splitOnChar sep (q ++ sep :: r) = q :: splitOnChar sep r := by
  induction q with
  | nil => simp [splitOnChar]
  | cons c t ih =>
    rw [List.cons_append, splitOnChar, ih (fun x hx => h x (by simp [hx]))]
    simp [h c (by simp)]

theorem intercalate_cons_cons (sep : Char) (q p : List Char) (rest : List (List Char)) :
    List.intercalate [sep] (q :: p :: rest) =
      q ++ sep :: List.intercalate [sep] (p :: rest) := by
  simp [List.intercalate, List.intersperse]

theorem splitOnChar_intercalate (sep : Char) (parts : List (List Char))
    (hne : parts ≠ [])
    (h : ∀ q ∈ parts, ∀ c ∈ q, ¬ c = sep) :
    splitOnChar sep (List.intercalate [sep] parts) = parts := by
  induction parts with
  | nil => exact absurd rfl hne
  | cons q rest ih =>
    cases rest with
    | nil =>
      rw [show List.intercalate [sep] [q] = q by simp [List.intercalate, List.intersperse]]
      exact splitOnChar_no_sep sep q (h q (by simp))
    | cons p rest2 =>
      rw [intercalate_cons_cons,
        splitOnChar_append_sep sep q _ (h q (by simp)),
        ih (by simp) (fun x hx c hc => h x (by simp [hx]) c hc)]

/-- The invariant fields of a well-formed `Path`, per part. -/
theorem PPath.wf_facts (p : PPath) (h : p.wf = true) :
    ∀ q ∈ p.parts, q ≠ [] ∧ q ≠ ['.'] ∧ ∀ c ∈ q, ¬ c = '/' := by
  intro q hq
  rw [PPath.wf, List.all_eq_true] at h
  have hfact := h q hq
  simp only [Bool.and_eq_true, decide_eq_true_eq] at hfact
  obtain ⟨⟨h1, h2⟩, h3⟩ := hfact
  refine ⟨by simpa [List.isEmpty_iff] using h1, h2, fun c hc => ?_⟩
  intro hcslash
  subst hcslash
  exact h3 (List.elem_eq_true_of_mem hc)

/-- `str(path)` of a well-formed path is never the empty string. -/
theorem renderPath_ne_nil (p : PPath) (h : p.wf = true) : renderPath p ≠ [] := by
  rw [renderPath]
  by_cases habs : p.absolute = true
  · simp [habs]
  · rw [if_neg (by simp [habs])]
    by_cases hparts : p.parts = []
    · simp [hparts]
    · rw [if_neg hparts]
      cases hp : p.parts with
      | nil => exact absurd hp hparts
      | cons q rest =>
        have hq := (PPath.wf_facts p h q (by simp [hp])).1
        cases rest with
        | nil =>
          simpa [List.intercalate, List.intersperse] using hq
        | cons p2 rest2 =>
          rw [intercalate_cons_cons]
          cases q with
          | nil => exact absurd rfl hq
          | cons c t => simp

/-- `Path(str(path)) = path` for every well-formed path (`__post_init__`
normalization is the identity on `Path` objects). -/
theorem parsePath_renderPath (p : PPath) (h : p.wf = true) : parsePath (renderPath p) = p := by
  have hfacts := PPath.wf_facts p h
  obtain ⟨abs, parts⟩ := p
  have hfilter : parts.filter (fun q => ¬ (q = [] ∨ q = ['.'])) = parts := by
    rw [List.filter_eq_self]
    intro q hq
    obtain ⟨h1, h2, _⟩ := hfacts q hq
    simp [h1, h2]
  cases abs with
  | true =>
    rw [renderPath, if_pos rfl]
    cases hp : parts with
    | nil =>
      rw [show List.intercalate ['/'] ([] : List (List Char)) = [] from rfl]
      rw [parsePath]
      simp [splitOnChar]
    | cons q rest =>
      rw [parsePath]
      have hsplit : splitOnChar '/' ('/' :: List.intercalate ['/'] (q :: rest)) =
          [] :: (q :: rest) := by
        rw [show splitOnChar '/' ('/' :: List.intercalate ['/'] (q :: rest)) =
            [] :: splitOnChar '/' (List.intercalate ['/'] (q :: rest)) by
          rw [splitOnChar]; simp]
        rw [splitOnChar_intercalate '/' (q :: rest) (by simp)
          (fun x hx c hc => (hfacts x (by simp [hp, hx])).2.2 c hc)]
      rw [hsplit]
      have hf2 : List.filter (fun q => decide ¬(q = [] ∨ q = ['.'])) (q :: rest) =
          q :: rest := hp ▸ hfilter
      simp only [List.head?_cons, PPath.mk.injEq, List.filter_cons]
      have hq := hfacts q (by simp [hp])
      have hrest : List.filter (fun q => decide ¬(q = [] ∨ q = ['.'])) rest = rest := by
        rw [List.filter_eq_self]
        intro a ha
        obtain ⟨h1, h2, _⟩ := hfacts a (by simp [hp, ha])
        simp [h1, h2]
      refine ⟨by simp, ?_⟩
      rw [if_neg (by simp), if_pos (by simp [hq.1, hq.2.1]), hrest]
  | false =>
    cases hp : parts with
    | nil =>
      rw [renderPath]
      simp only [if_neg (by simp : ¬ (false : Bool) = true), if_pos rfl]
      rw [parsePath]
      simp [splitOnChar]
    | cons q rest =>
      rw [renderPath]
      rw [if_neg (by simp : ¬ (false : Bool) = true), if_neg (by simp)]
      have hsplit : splitOnChar '/' (List.intercalate ['/'] (q :: rest)) = q :: rest :=
        splitOnChar_intercalate '/' (q :: rest) (by simp)
          (fun x hx c hc => (hfacts x (by simp [hp, hx])).2.2 c hc)
      obtain ⟨h1, _, h3⟩ := hfacts q (by simp [hp])
      cases q with
      | nil => exact absurd rfl h1
      | cons c t =>
        have hhead : (List.intercalate ['/'] ((c :: t) :: rest)).head? = some c := by
          cases rest with
          | nil => simp [List.intercalate, List.intersperse]
          | cons p2 rest2 => rw [intercalate_cons_cons]; simp
        rw [parsePath, hsplit]
        have hc : ¬ c = '/' := h3 c (by simp)
        simp only [hhead, PPath.mk.injEq]
        constructor
        · simp [hc]
        · rw [← hp, hfilter]

theorem digitChar_toNat (n : Nat) (h : n ≤ 9) : (digitChar n).toNat = 48 + n :=
  char_toNat_ofNat _ (by left; omega)

theorem digitChar_isDigitB (n : Nat) (h : n ≤ 9) : isDigitB (digitChar n) = true := by
  simp only [isDigitB, digitChar_toNat n h, Bool.and_eq_true, decide_eq_true_eq]
  omega

theorem digitChar_ne_dash (n : Nat) (h : n ≤ 9) : ¬ digitChar n = '-' := by
  intro he
  have h2 := digitChar_toNat n h
  rw [he] at h2
  rw [show ('-').toNat = 45 from rfl] at h2
  omega

theorem daysInMonth_le (y m : Nat) : daysInMonth y m ≤ 31 := by
  unfold daysInMonth
  split
  · split <;> omega
  · split <;> omega

/-- `strptime("%Y-%m-%d")` inverts `isoformat()` on every valid date. -/
theorem parseDate_isoformat (d : PyDate) (h : d.valid = true) :
    parseDate (isoformatDate d) = some d := by
  obtain ⟨y, m, dd⟩ := d
  have hv := h
  rw [PyDate.valid] at hv
  simp only [Bool.and_eq_true, decide_eq_true_eq] at hv
  obtain ⟨⟨⟨⟨⟨h1, h2⟩, h3⟩, h4⟩, h5⟩, h6⟩ := hv
  have hdd31 : dd ≤ 31 := Nat.le_trans h6 (daysInMonth_le y m)
  have hsplit : splitOnChar '-' (isoformatDate ⟨y, m, dd⟩) =
      [[digitChar (y / 1000 % 10), digitChar (y / 100 % 10), digitChar (y / 10 % 10),
          digitChar (y % 10)],
        [digitChar (m / 10 % 10), digitChar (m % 10)],
        [digitChar (dd / 10 % 10), digitChar (dd % 10)]] := by
    rw [show isoformatDate ⟨y, m, dd⟩ =
        [digitChar (y / 1000 % 10), digitChar (y / 100 % 10), digitChar (y / 10 % 10),
            digitChar (y % 10)] ++
          '-' :: ([digitChar (m / 10 % 10), digitChar (m % 10)] ++
            '-' :: [digitChar (dd / 10 % 10), digitChar (dd % 10)]) from rfl]
    rw [splitOnChar_append_sep '-' _ _ (by
        intro c hc
        simp only [List.mem_cons, List.not_mem_nil, or_false] at hc
        rcases hc with rfl | rfl | rfl | rfl <;> exact digitChar_ne_dash _ (by omega))]
    rw [splitOnChar_append_sep '-' _ _ (by
        intro c hc
        simp only [List.mem_cons, List.not_mem_nil, or_false] at hc
        rcases hc with rfl | rfl <;> exact digitChar_ne_dash _ (by omega))]
    rw [splitOnChar_no_sep '-' _ (by
        intro c hc
        simp only [List.mem_cons, List.not_mem_nil, or_false] at hc
        rcases hc with rfl | rfl <;> exact digitChar_ne_dash _ (by omega))]
  rw [parseDate, hsplit]
  simp only [List.length_cons, List.length_nil, List.all_cons, List.all_nil]
  rw [if_pos (by
    simp [digitChar_isDigitB _ (show y / 1000 % 10 ≤ 9 by omega),
      digitChar_isDigitB _ (show y / 100 % 10 ≤ 9 by omega),
      digitChar_isDigitB _ (show y / 10 % 10 ≤ 9 by omega),
      digitChar_isDigitB _ (show y % 10 ≤ 9 by omega),
      digitChar_isDigitB _ (show m / 10 % 10 ≤ 9 by omega),
      digitChar_isDigitB _ (show m % 10 ≤ 9 by omega),
      digitChar_isDigitB _ (show dd / 10 % 10 ≤ 9 by omega),
      digitChar_isDigitB _ (show dd % 10 ≤ 9 by omega)])]
  have hy : decValue [digitChar (y / 1000 % 10), digitChar (y / 100 % 10),
      digitChar (y / 10 % 10), digitChar (y % 10)] = y := by
    rw [decValue]
    simp only [List.foldl_cons, List.foldl_nil]
    rw [digitChar_toNat _ (by omega), digitChar_toNat _ (by omega),
      digitChar_toNat _ (by omega), digitChar_toNat _ (by omega)]
    omega
  have hm : decValue [digitChar (m / 10 % 10), digitChar (m % 10)] = m := by
    rw [decValue]
    simp only [List.foldl_cons, List.foldl_nil]
    rw [digitChar_toNat _ (by omega), digitChar_toNat _ (by omega)]
    omega
  have hd : decValue [digitChar (dd / 10 % 10), digitChar (dd % 10)] = dd := by
    rw [decValue]
    simp only [List.foldl_cons, List.foldl_nil]
    rw [digitChar_toNat _ (by omega), digitChar_toNat _ (by omega)]
    omega
  rw [hy, hm, hd, if_pos h]

/-! ## Claim C8: configuration round trip -/

/-- C8.  Loading a saved configuration record reconstructs the configuration
exactly, so re-saving it reproduces byte-identical string values for every
field: paths re-render to the same strings, the date re-renders to the same
`YYYY-MM-DD`, and the pattern/flag fields pass through unchanged. -/
theorem claim_C8 (c : ProcessorConfig)
    (hs : c.source_folder.wf = true)
    (hsp : ∀ q, c.supplementary_folder = some q → q.wf = true)
    (ha : ∀ q, c.appendix_file = some q → q.wf = true)
    (ho : c.output_folder.wf = true)
    (hd : c.start_date.valid = true) :
    from_dict (to_dict c) = some c ∧
      (from_dict (to_dict c)).map to_dict = some (to_dict c) := by
  have hmain : from_dict (to_dict c) = some c := by
    obtain ⟨sf, sup, ap, out, sd, fp, ip, rec⟩ := c
    cases sup with
    | none =>
      cases ap with
      | none =>
        simp [to_dict, from_dict, parseDate_isoformat sd hd,
          parsePath_renderPath sf hs, parsePath_renderPath out ho]
      | some qa =>
        have hqa : qa.wf = true := ha qa rfl
        simp [to_dict, from_dict, parseDate_isoformat sd hd,
          parsePath_renderPath sf hs, parsePath_renderPath out ho,
          renderPath_ne_nil qa hqa, parsePath_renderPath qa hqa]
    | some qs =>
      have hqs : qs.wf = true := hsp qs rfl
      cases ap with
      | none =>
        simp [to_dict, from_dict, parseDate_isoformat sd hd,
          parsePath_renderPath sf hs, parsePath_renderPath out ho,
          renderPath_ne_nil qs hqs, parsePath_renderPath qs hqs]
      | some qa =>
        have hqa : qa.wf = true := ha qa rfl
        simp [to_dict, from_dict, parseDate_isoformat sd hd,
          parsePath_renderPath sf hs, parsePath_renderPath out ho,
          renderPath_ne_nil qs hqs, parsePath_renderPath qs hqs,
          renderPath_ne_nil qa hqa, parsePath_renderPath qa hqa]
  exact ⟨hmain, by rw [hmain]; rfl⟩

/-- A concrete configuration with all optional fields set. -/
def cW : ProcessorConfig :=
  { source_folder := ⟨false, ["src".data]⟩
    supplementary_folder := some ⟨false, ["supp".data]⟩
    appendix_file := some ⟨false, ["append.pdf".data]⟩
    output_folder := ⟨true, ["var".data, "out".data]⟩
    start_date := ⟨2024, 1, 5⟩
    file_pattern := "*.pdf".data
    id_pattern := "^[A-Za-z]\\d+$".data
    recursive := false }

/-- C8 (witness): the concrete configuration round-trips exactly. -/
theorem claim_C8_witness :
    from_dict (to_dict cW) = some cW ∧
      (from_dict (to_dict cW)).map to_dict = some (to_dict cW) :=
  claim_C8 cW (by decide)
    (fun q hq => by
      rw [show cW.supplementary_folder = some ⟨false, ["supp".data]⟩ from rfl] at hq
      injection hq with h2
      subst h2
      decide)
    (fun q hq => by
      rw [show cW.appendix_file = some ⟨false, ["append.pdf".data]⟩ from rfl] at hq
      injection hq with h2
      subst h2
      decide)
    (by decide) (by decide)
